/-
Verification of the test-assets download library (`src/lib.rs`).

The development shallowly embeds the library's core: the `Sha256Hash`
hex codec, the per-file fetcher `download_test_file`, the batch driver
`dl_test_files`, and the retry wrapper `dl_test_files_backoff`.
External collaborators (the HTTP transport, the SHA-256 implementation
from the `sha2` crate, and the file system) are modelled as explicit
parameters and state; the `hash_list` module, whose source file is not
part of the sources, is modelled from the specification.
-/
import Mathlib

set_option autoImplicit false

namespace TestAssets

/-- Embeds Rust's `char::to_digit(16)`: ASCII digits `0`-`9` map to their
value, `a`-`f` and `A`-`F` map to 10..15, every other character fails.
Character classes are expressed through the scalar value (`c.toNat`),
so `48`..`57` is `'0'`..`'9'`, `97`..`102` is `'a'`..`'f'`,
`65`..`70` is `'A'`..`'F'`. -/
def toDigit16 (c : Char) : Option Nat :=
  if 48 ≤ c.toNat ∧ c.toNat ≤ 57 then some (c.toNat - 48)
  else if 97 ≤ c.toNat ∧ c.toNat ≤ 102 then some (c.toNat - 87)
  else if 65 ≤ c.toNat ∧ c.toNat ≤ 70 then some (c.toNat - 55)
  else none

/-- Embeds Rust's `char::from_digit(d, 16).unwrap()` as used by `to_hex`:
digits below ten render as `'0' + d` (scalar `48 + d`), ten to fifteen as
`'a' + (d - 10)` (scalar `87 + d`).  `to_hex` only calls it on `d < 16`,
where the `unwrap` cannot fail. -/
def from_digit16 (d : Nat) : Char :=
  if d < 10 then Char.ofNat (48 + d) else Char.ofNat (87 + d)

/-- ASCII lowercasing of one character (`A`-`Z` shifts by 32, everything
else is unchanged); the spec's "lowercase form" of a hex string. -/
def toLowerAscii (c : Char) : Char :=
  if 65 ≤ c.toNat ∧ c.toNat ≤ 90 then Char.ofNat (c.toNat + 32) else c

/-- Whether a character is a lowercase hex digit (`0`-`9` or `a`-`f`). -/
def isLowerHexDigit (c : Char) : Bool :=
  (48 ≤ c.toNat && c.toNat ≤ 57) || (97 ≤ c.toNat && c.toNat ≤ 102)

/-- Embeds `Sha256Hash` (`pub struct Sha256Hash([u8; 32])`): the 32 bytes
of a digest.  Validity (length 32, each entry below 256) is stated as a
hypothesis where a theorem needs it, mirroring the `[u8; 32]` type. -/
structure Sha256Hash where
  bytes : List Nat
deriving DecidableEq, Repr

/-- Embeds the loop of `Sha256Hash::from_hex`: consume two characters per
byte via `to_digit(16)`, failing if either `iter.next()` is exhausted or
the character is not hex, and stop as soon as `idx` reaches the fuel
(32 bytes for the real call) — remaining characters are never examined.
`(upper << 4) | lower` on two nibbles below 16 is `upper * 16 + lower`
(no `u8` overflow is possible). -/
def from_hexAux : Nat → List Char → Option (List Nat)
  | 0, _ => some []
  | n + 1, c1 :: c2 :: rest =>
    match toDigit16 c1, toDigit16 c2 with
    | some u, some l => (from_hexAux n rest).map (fun bs => (u * 16 + l) :: bs)
    | _, _ => none
  | _ + 1, _ => none

/-- Embeds `Sha256Hash::from_hex` (`Result<Self, ()>` becomes `Option`;
the caller maps the error to `BadHashFormat`). -/
def Sha256Hash.from_hex (s : String) : Option Sha256Hash :=
  (from_hexAux 32 s.data).map Sha256Hash.mk

/-- Embeds `Sha256Hash::to_hex`: each byte `v` yields the characters for
`v >> 4` (that is `v / 16`) and `v & 15` (that is `v % 16`). -/
def Sha256Hash.to_hex (h : Sha256Hash) : String :=
  String.mk ((h.bytes.map fun v => [from_digit16 (v / 16), from_digit16 (v % 16)]).flatten)

/-- The two hex characters `to_hex` emits for a byte `v`. -/
def byteChars (v : Nat) : List Char :=
  [from_digit16 (v / 16), from_digit16 (v % 16)]

/-- Embeds `TestAssetDef`: filename, expected hash (hex text) and url. -/
structure TestAssetDef where
  filename : String
  hash : String
  url : String
deriving DecidableEq, Repr

/-- The kind of an `std::io::Error`, reduced to the only distinction the
library makes (`ErrorKind::NotFound` against everything else, see the
`from_file` match in `dl_test_files`). -/
inductive IoKind where
  | notFound
  | otherKind
deriving DecidableEq, Repr

/-- Embeds `TaError` (`Io`, `DownloadFailed`, `HashMismatch`,
`BadHashFormat`); the `Io` payload keeps only the error kind. -/
inductive TaError where
  | ioError (k : IoKind)
  | downloadFailed
  | hashMismatch (found expected : String)
  | badHashFormat
deriving DecidableEq, Repr

/-- Result of running a piece of Rust code that may also `panic!` /
`unwrap` on `None` or `Err`: either a value, a returned `TaError`, or a
panic that unwinds out of the library. -/
inductive DlResult (α : Type) where
  | ok (a : α)
  | err (e : TaError)
  | panic
deriving DecidableEq, Repr

/-- `true` exactly on `DlResult.err`. -/
def DlResult.isErr {α : Type} : DlResult α → Bool
  | .err _ => true
  | _ => false

/-- Modelled from the spec: `HashList` (module `hash_list`, whose source
file is not among the sources) is "a mapping from filename → Digest"
with "at most one entry per filename"; we represent it as an association
list in insertion order. -/
abbrev HashList : Type := List (String × Sha256Hash)

/-- Modelled from the spec: `HashList::new()` → empty instance. -/
def HashList.new : HashList := []

/-- Modelled from the spec: `getHash(filename) → Digest | absent`. -/
def HashList.get_hash (l : HashList) (name : String) : Option Sha256Hash :=
  (l.find? (fun p => p.1 = name)).map (fun p => p.2)

/-- Modelled from the spec: `addEntry(filename, digest)` inserts or
overwrites, keeping at most one entry per filename (last write wins,
insertion order preserved). -/
def HashList.add_entry (l : HashList) (name : String) (d : Sha256Hash) : HashList :=
  if l.any (fun p => p.1 = name) then
    l.map (fun p => if p.1 = name then (name, d) else p)
  else l ++ [(name, d)]

/-- The state of the manifest file `<dir>/hash_list`.  The spec fixes a
self-consistent, deterministic textual serialization of the entry list
("a conforming reader must parse what a conforming writer produces"), so
the file's bytes are modelled by the entry list they encode: two
manifests are byte-identical exactly when their entry lists are equal.
`ioFail` stands for a file whose read fails with an I/O error other than
`NotFound` (for example a permission error). -/
inductive ManifestFile where
  | absent
  | ioFail
  | stored (entries : HashList)
deriving DecidableEq

/-- The file system restricted to the target directory `dir`: the
manifest file `<dir>/hash_list` and the data files `<dir>/<filename>`
(keyed by filename, holding their bytes).  `create_dir_all` and file
creation are modelled as always succeeding. -/
structure FS where
  manifest : ManifestFile
  files : List (String × List Nat)
deriving DecidableEq

/-- Writing `<dir>/<filename>` via `File::create` + `write_all`: the file
is created or fully overwritten with `data`. -/
def FS.writeFile (fs : FS) (name : String) (data : List Nat) : FS :=
  { fs with files := (name, data) :: fs.files.filter (fun p => ¬ p.1 = name) }

/-- Modelled from the spec: `HashList::from_file(path)` "fails with
`NotFound` if the file is absent (distinguished from other I/O failures
…), fails with a parse error on malformed lines"; a stored manifest
written by a conforming writer parses back to its entry list. -/
def HashList.from_file : ManifestFile → Except TaError HashList
  | .absent => .error (.ioError .notFound)
  | .ioFail => .error (.ioError .otherKind)
  | .stored l => .ok l

/-- Modelled from the spec: `HashList::to_file(path)` "serializes all
entries, overwriting the manifest". -/
def HashList.to_file (l : HashList) (fs : FS) : FS :=
  { fs with manifest := .stored l }

/-- The body stream a successful GET hands back: either it delivers
`data` and then ends cleanly, or it delivers `data` and then fails with
a read error. -/
inductive Body where
  | complete (data : List Nat)
  | failed (data : List Nat)
deriving DecidableEq

/-- Outcome of `agent.get(url).call()`: the call itself fails
(`callFail`, the `Err(e)` branch), or a response arrives carrying an
optional `Content-Length` header value and a body stream. -/
inductive HttpResult where
  | callFail
  | success (contentLength : Option String) (body : Body)
deriving DecidableEq

/-- The byte budget of `.take(10_000_000_000)` in `download_test_file`. -/
def readLimit : Nat := 10000000000

/-- Embeds `resp.into_reader().take(10_000_000_000).read_to_end(&mut bytes)`
on an initially empty buffer: at most `readLimit` bytes are consumed; a
clean stream yields its (truncated) bytes, and a stream that errors
before the budget is exhausted yields the read error (propagated by `?`
as `TaError::Io`; the error's kind is transport-defined, never
`NotFound`-relevant here, and modelled as `otherKind`). -/
def readToEnd : Body → Except TaError (List Nat)
  | .complete data => .ok (data.take readLimit)
  | .failed data =>
    if readLimit ≤ data.length then .ok (data.take readLimit) else .error (.ioError .otherKind)

/-- Embeds Rust's `str::parse::<usize>()` on the `Content-Length` header:
an optional leading `+`, then at least one ASCII digit, no other
characters, and the value must fit in 64 bits. -/
def parseUsize (s : String) : Option Nat :=
  let cs := match s.data with
    | '+' :: rest => rest
    | cs => cs
  if cs.isEmpty then none
  else if cs.all (fun c => 48 ≤ c.toNat && c.toNat ≤ 57) then
    let v := cs.foldl (fun a c => a * 10 + (c.toNat - 48)) 0
    if v < 2 ^ 64 then some v else none
  else none

/-- Embeds `download_test_file(agent, tfile, dir)`.  The HTTP transport
and the SHA-256 function of the `sha2` crate are external collaborators,
passed in as `resp` (the result of the single GET) and `sha` (bytes →
32-byte digest).  The returned pair carries the outcome
(`DownloadOutcome::WithHash` has a single variant, so the payload is the
digest) together with the file system after the call.
Faithful to the source:
* a failed `call()` prints and returns `TaError::DownloadFailed`;
* `resp.header("Content-Length").unwrap().parse().unwrap()` panics when
  the header is missing or unparsable;
* `read_to_end` errors propagate through `?` as `TaError::Io`;
* the guard `if (bytes.len() != read_len) && (bytes.len() != len)`
  returns `DownloadFailed`, with `read_len` the byte count returned by
  `read_to_end`;
* otherwise the bytes are written to `<dir>/<filename>` and their
  digest is returned. -/
def download_test_file (sha : List Nat → List Nat) (resp : HttpResult)
    (fs : FS) (filename : String) : DlResult Sha256Hash × FS :=
  match resp with
  | .callFail => (.err .downloadFailed, fs)
  | .success none _ => (.panic, fs)
  | .success (some hdr) body =>
    match parseUsize hdr with
    | none => (.panic, fs)
    | some len =>
      match readToEnd body with
      | .error e => (.err e, fs)
      | .ok bytes =>
        let read_len := bytes.length
        if bytes.length ≠ read_len ∧ bytes.length ≠ len then
          (.err .downloadFailed, fs)
        else
          (.ok ⟨sha bytes⟩, fs.writeFile filename bytes)

/-- Embeds the `for tfile in defs.iter()` loop of `dl_test_files`
(lines 190–224): parse the expected hash (`BadHashFormat` on failure),
skip on a cache hit, otherwise perform the GET (`http` maps a url to its
transport outcome; `calls` counts the GETs issued), record the obtained
digest in the hash list, and abort with `HashMismatch(found, expected)`
when it differs from the expected one.  Returns the final outcome, hash
list, file system and GET count. -/
def processAssets (sha : List Nat → List Nat) (http : String → HttpResult) :
    List TestAssetDef → HashList → FS → Nat → DlResult Unit × HashList × FS × Nat
  | [], hl, fs, calls => (.ok (), hl, fs, calls)
  | tfile :: rest, hl, fs, calls =>
    match Sha256Hash.from_hex tfile.hash with
    | none => (.err .badHashFormat, hl, fs, calls)
    | some tfile_hash =>
      if hl.get_hash tfile.filename = some tfile_hash then
        processAssets sha http rest hl fs calls
      else
        match download_test_file sha (http tfile.url) fs tfile.filename with
        | (.ok found_hash, fs') =>
          let hl' := hl.add_entry tfile.filename found_hash
          if found_hash = tfile_hash then
            processAssets sha http rest hl' fs' (calls + 1)
          else
            (.err (.hashMismatch found_hash.to_hex tfile.hash), hl', fs', calls + 1)
        | (.err e, fs') => (.err e, hl, fs', calls + 1)
        | (.panic, fs') => (.panic, hl, fs', calls + 1)

/-- What one invocation of `dl_test_files` produces: its `Result` (or a
panic), the file system afterwards, and how many GETs were issued. -/
structure RunResult where
  result : DlResult Unit
  fs : FS
  calls : Nat
deriving DecidableEq

/-- Embeds lines 189–226 of `dl_test_files`: run the asset loop from a
given starting hash list and, only when the loop completes normally,
serialize the hash list to the manifest (`hash_list.to_file`, modelled
as always succeeding) before returning `Ok(())`. -/
def runBatch (sha : List Nat → List Nat) (http : String → HttpResult)
    (defs : List TestAssetDef) (hl : HashList) (fs : FS) : RunResult :=
  match processAssets sha http defs hl fs 0 with
  | (.ok _, hl', fs', calls) => ⟨.ok (), hl'.to_file fs', calls⟩
  | (r, _, fs', calls) => ⟨r, fs', calls⟩

/-- Embeds `dl_test_files(defs, dir, verbose)`.  The manifest at
`<dir>/hash_list` is loaded first: `Ok(l)` starts from `l`, an
`Io` error of kind `NotFound` starts from `HashList::new()`, and any
other error is returned (`e?`).  `verbose` only controls printing and
has no observable effect in the model. -/
def dl_test_files (sha : List Nat → List Nat) (http : String → HttpResult)
    (defs : List TestAssetDef) (fs : FS) : RunResult :=
  match HashList.from_file fs.manifest with
  | .ok l => runBatch sha http defs l fs
  | .error (.ioError .notFound) => runBatch sha http defs HashList.new fs
  | .error e => ⟨.err e, fs, 0⟩

/-- Embeds the retry loop produced by
`(|| dl_test_files(..)).retry(strategy).call()` with
`ExponentialBuilder::default()`: the closure is called, and on `Err` it
is called again after a backoff sleep, up to `fuel` retries
(`backon`'s default `max_times` is 3, so 4 calls in total); the delays,
capped by `with_max_delay`, do not affect the returned value.  A panic
inside the closure unwinds immediately. -/
def retryCall (sha : List Nat → List Nat) (http : String → HttpResult)
    (defs : List TestAssetDef) : Nat → FS → RunResult
  | 0, fs => dl_test_files sha http defs fs
  | fuel + 1, fs =>
    match dl_test_files sha http defs fs with
    | ⟨.err _, fs', _⟩ => retryCall sha http defs fuel fs'
    | r => r

/-- Embeds `dl_test_files_backoff(assets_defs, test_path, verbose,
max_delay)`: retry the whole batch under the default exponential policy
(3 retries), then `.unwrap()` the final result — an `Err` after
exhausting the policy panics — and return `Ok(())`.  `max_delay` only
shapes the sleeps and has no observable effect in the model. -/
def dl_test_files_backoff (sha : List Nat → List Nat) (http : String → HttpResult)
    (defs : List TestAssetDef) (fs : FS) (max_delay : Nat) : RunResult :=
  let r := retryCall sha http defs 3 fs
  match r.result with
  | .ok _ => ⟨.ok (), r.fs, r.calls⟩
  | .err _ => ⟨.panic, r.fs, r.calls⟩
  | .panic => ⟨.panic, r.fs, r.calls⟩

/-! Lemmas about the hex codec. -/

theorem toDigit16_from_digit16 {d : Nat} (h : d < 16) :
    toDigit16 (from_digit16 d) = some d := by
  interval_cases d <;> decide

theorem toDigit16_lt {c : Char} {d : Nat} (h : toDigit16 c = some d) : d < 16 := by
  unfold toDigit16 at h
  split at h
  · simp only [Option.some.injEq] at h; omega
  · split at h
    · simp only [Option.some.injEq] at h; omega
    · split at h
      · simp only [Option.some.injEq] at h; omega
      · exact absurd h (by simp)

theorem from_digit16_toLower {c : Char} {d : Nat} (h : toDigit16 c = some d) :
    from_digit16 d = toLowerAscii c := by
  unfold toDigit16 at h
  split at h
  case isTrue h1 =>
    simp only [Option.some.injEq] at h
    have hd : d < 10 := by omega
    have he : 48 + d = c.toNat := by omega
    have hlow : toLowerAscii c = c := by
      unfold toLowerAscii
      rw [if_neg (by omega)]
    rw [from_digit16, if_pos hd, he, hlow, Char.ofNat_toNat]
  case isFalse h1 =>
    split at h
    case isTrue h2 =>
      simp only [Option.some.injEq] at h
      have hd : ¬ d < 10 := by omega
      have he : 87 + d = c.toNat := by omega
      have hlow : toLowerAscii c = c := by
        unfold toLowerAscii
        rw [if_neg (by omega)]
      rw [from_digit16, if_neg hd, he, hlow, Char.ofNat_toNat]
    case isFalse h2 =>
      split at h
      case isTrue h3 =>
        simp only [Option.some.injEq] at h
        have hd : ¬ d < 10 := by omega
        have he : 87 + d = c.toNat + 32 := by omega
        have hlow : toLowerAscii c = Char.ofNat (c.toNat + 32) := by
          unfold toLowerAscii
          rw [if_pos (by omega)]
        rw [from_digit16, if_neg hd, he, hlow]
      case isFalse h3 => exact absurd h (by simp)

theorem isLowerHexDigit_from_digit16 {d : Nat} (h : d < 16) :
    isLowerHexDigit (from_digit16 d) = true := by
  interval_cases d <;> decide

theorem to_hex_data (h : Sha256Hash) :
    h.to_hex.data = (h.bytes.map byteChars).flatten := rfl

theorem byteChars_length (v : Nat) : (byteChars v).length = 2 := rfl

theorem flatten_byteChars_length (l : List Nat) :
    ((l.map byteChars).flatten).length = 2 * l.length := by
  induction l with
  | nil => rfl
  | cons v t ih => simp [byteChars, ih]; omega

theorem from_hexAux_flatten (l : List Nat) (hb : ∀ b ∈ l, b < 256) :
    from_hexAux l.length ((l.map byteChars).flatten) = some l := by
  induction l with
  | nil => rfl
  | cons v t ih =>
    have hv : v < 256 := hb v (List.mem_cons_self v t)
    have hu : v / 16 < 16 := by omega
    have hl : v % 16 < 16 := by omega
    simp only [List.map_cons, List.flatten_cons, byteChars, List.cons_append, List.nil_append,
      List.append_nil, List.length_cons, from_hexAux,
      toDigit16_from_digit16 hu, toDigit16_from_digit16 hl]
    rw [show List.append ([] : List Char) ((t.map byteChars).flatten) =
      (t.map byteChars).flatten from rfl]
    rw [ih (fun b hbm => hb b (List.mem_cons_of_mem v hbm))]
    have : v / 16 * 16 + v % 16 = v := by omega
    simp [this]

theorem from_hexAux_some (n : Nat) (cs : List Char) (hlen : cs.length = 2 * n)
    (hhex : ∀ c ∈ cs, (toDigit16 c).isSome) :
    ∃ l, from_hexAux n cs = some l ∧ l.length = n ∧ (∀ b ∈ l, b < 256) ∧
      (l.map byteChars).flatten = cs.map toLowerAscii := by
  induction n generalizing cs with
  | zero =>
    have : cs = [] := List.eq_nil_of_length_eq_zero (by omega)
    subst this
    exact ⟨[], rfl, rfl, by simp, rfl⟩
  | succ n ih =>
    match cs with
    | [] => simp at hlen
    | [c] => simp at hlen; omega
    | c1 :: c2 :: rest =>
      have h1 : (toDigit16 c1).isSome := hhex c1 (by simp)
      have h2 : (toDigit16 c2).isSome := hhex c2 (by simp)
      obtain ⟨u, hu⟩ := Option.isSome_iff_exists.mp h1
      obtain ⟨v, hv⟩ := Option.isSome_iff_exists.mp h2
      have hrest : rest.length = 2 * n := by simp at hlen; omega
      obtain ⟨l, hfa, hlenl, hbnd, hflat⟩ := ih rest hrest
        (fun c hc => hhex c (by simp [hc]))
      refine ⟨(u * 16 + v) :: l, ?_, by simp [hlenl], ?_, ?_⟩
      · simp [from_hexAux, hu, hv, hfa]
      · intro b hbm
        rcases List.mem_cons.mp hbm with h | h
        · have := toDigit16_lt hu
          have := toDigit16_lt hv
          omega
        · exact hbnd b h
      · have hu16 := toDigit16_lt hu
        have hv16 := toDigit16_lt hv
        have hdiv : (u * 16 + v) / 16 = u := by omega
        have hmod : (u * 16 + v) % 16 = v := by omega
        simp only [List.map_cons, List.flatten_cons, byteChars, hdiv, hmod,
          from_digit16_toLower hu, from_digit16_toLower hv, hflat]
        rfl

theorem from_hexAux_isSome (n : Nat) (cs : List Char) :
    (from_hexAux n cs).isSome = true ↔
      2 * n ≤ cs.length ∧ ∀ c ∈ cs.take (2 * n), (toDigit16 c).isSome = true := by
  induction n generalizing cs with
  | zero => simp [from_hexAux]
  | succ n ih =>
    match cs with
    | [] => simp [from_hexAux]
    | [c] =>
      simp only [from_hexAux, List.length_cons, List.length_nil]
      constructor
      · intro h; simp at h
      · intro ⟨h, _⟩; omega
    | c1 :: c2 :: rest =>
      have htake : (c1 :: c2 :: rest).take (2 * (n + 1)) =
          c1 :: c2 :: rest.take (2 * n) := by
        have : 2 * (n + 1) = (2 * n + 1) + 1 := by omega
        rw [this, List.take_succ_cons, List.take_succ_cons]
      rw [htake]
      constructor
      · intro h
        simp only [from_hexAux] at h
        rcases hc1 : toDigit16 c1 with _ | u <;> rcases hc2 : toDigit16 c2 with _ | v <;>
          simp only [hc1, hc2] at h
        · simp at h
        · simp at h
        · simp at h
        · have h' : (from_hexAux n rest).isSome = true := by
            cases hfa : from_hexAux n rest with
            | none => rw [hfa] at h; simp at h
            | some l => rfl
          have := (ih rest).mp h'
          refine ⟨by simp; omega, ?_⟩
          intro c hc
          rcases List.mem_cons.mp hc with rfl | hc
          · simp [hc1]
          · rcases List.mem_cons.mp hc with rfl | hc
            · simp [hc2]
            · exact this.2 c hc
      · intro ⟨hlen, hall⟩
        have h1 : (toDigit16 c1).isSome = true := hall c1 (by simp)
        have h2 : (toDigit16 c2).isSome = true := hall c2 (by simp)
        obtain ⟨u, hu⟩ := Option.isSome_iff_exists.mp h1
        obtain ⟨v, hv⟩ := Option.isSome_iff_exists.mp h2
        have hr : 2 * n ≤ rest.length := by simp at hlen; omega
        have h' : (from_hexAux n rest).isSome = true :=
          (ih rest).mpr ⟨hr, fun c hc => hall c (by simp [hc])⟩
        simp only [from_hexAux, hu, hv]
        cases hfa : from_hexAux n rest with
        | none => rw [hfa] at h'; simp at h'
        | some l => rfl

theorem isLowerHexDigit_flatten (l : List Nat) (hb : ∀ b ∈ l, b < 256) :
    ∀ c ∈ (l.map byteChars).flatten, isLowerHexDigit c = true := by
  induction l with
  | nil => simp
  | cons v t ih =>
    intro c hc
    have hv : v < 256 := hb v (List.mem_cons_self v t)
    simp only [List.map_cons, List.flatten_cons, byteChars] at hc
    rcases hc with hc
    simp only [List.cons_append, List.nil_append, List.mem_cons] at hc
    rcases hc with rfl | rfl | hc
    · exact isLowerHexDigit_from_digit16 (by omega)
    · exact isLowerHexDigit_from_digit16 (by omega)
    · exact ih (fun b hbm => hb b (List.mem_cons_of_mem v hbm)) c hc

/-! Lemmas about the fetcher and the batch driver. -/

theorem download_test_file_manifest (sha : List Nat → List Nat) (resp : HttpResult)
    (fs : FS) (name : String) :
    (download_test_file sha resp fs name).2.manifest = fs.manifest := by
  unfold download_test_file
  split
  · rfl
  · rfl
  · split
    · rfl
    · split
      · rfl
      · dsimp only
        split
        · rfl
        · rfl

theorem download_test_file_complete (sha : List Nat → List Nat) (fs : FS)
    (name hdr : String) (len : Nat) (data : List Nat) (hp : parseUsize hdr = some len) :
    download_test_file sha (.success (some hdr) (.complete data)) fs name
      = (.ok ⟨sha (data.take readLimit)⟩, fs.writeFile name (data.take readLimit)) := by
  simp only [download_test_file, hp, readToEnd]
  rw [if_neg]
  intro hc
  exact hc.1 rfl

theorem processAssets_manifest (sha : List Nat → List Nat) (http : String → HttpResult)
    (defs : List TestAssetDef) :
    ∀ (hl : HashList) (fs : FS) (calls : Nat),
      (processAssets sha http defs hl fs calls).2.2.1.manifest = fs.manifest := by
  induction defs with
  | nil => intro hl fs calls; rfl
  | cons tfile rest ih =>
    intro hl fs calls
    simp only [processAssets]
    split
    · rfl
    · split
      · exact ih hl fs calls
      · split
        · rename_i found fs' hdl
          have hman : fs'.manifest = fs.manifest := by
            have h := download_test_file_manifest sha (http tfile.url) fs tfile.filename
            rw [hdl] at h
            exact h
          split
          · rw [ih _ fs' _, hman]
          · exact hman
        · rename_i e fs' hdl
          have h := download_test_file_manifest sha (http tfile.url) fs tfile.filename
          rw [hdl] at h
          exact h
        · rename_i fs' hdl
          have h := download_test_file_manifest sha (http tfile.url) fs tfile.filename
          rw [hdl] at h
          exact h

theorem processAssets_allHit (sha : List Nat → List Nat) (http : String → HttpResult)
    (defs : List TestAssetDef) :
    ∀ (hl : HashList) (fs : FS) (calls : Nat),
      (∀ t ∈ defs, ∃ hh, Sha256Hash.from_hex t.hash = some hh ∧
        hl.get_hash t.filename = some hh) →
      processAssets sha http defs hl fs calls = (.ok (), hl, fs, calls) := by
  induction defs with
  | nil => intro hl fs calls _; rfl
  | cons tfile rest ih =>
    intro hl fs calls h
    obtain ⟨hh, hfh, hget⟩ := h tfile (List.mem_cons_self tfile rest)
    simp only [processAssets, hfh]
    rw [if_pos hget]
    exact ih hl fs calls (fun t ht => h t (List.mem_cons_of_mem tfile ht))

theorem runBatch_abort_manifest (sha : List Nat → List Nat) (http : String → HttpResult)
    (defs : List TestAssetDef) (hl : HashList) (fs : FS)
    (h : (runBatch sha http defs hl fs).result ≠ .ok ()) :
    (runBatch sha http defs hl fs).fs.manifest = fs.manifest := by
  rcases hp : processAssets sha http defs hl fs 0 with ⟨res, hl', fs', calls⟩
  have hman : fs'.manifest = fs.manifest := by
    have hm := processAssets_manifest sha http defs hl fs 0
    rw [hp] at hm
    exact hm
  rcases res with _ | e | _
  · exfalso
    apply h
    unfold runBatch
    rw [hp]
  · unfold runBatch
    rw [hp]
    exact hman
  · unfold runBatch
    rw [hp]
    exact hman

theorem dl_test_files_first_bad (sha : List Nat → List Nat) (http : String → HttpResult)
    (tfile : TestAssetDef) (rest : List TestAssetDef) (fs : FS)
    (hbad : Sha256Hash.from_hex tfile.hash = none) (hmf : fs.manifest ≠ .ioFail) :
    dl_test_files sha http (tfile :: rest) fs = ⟨.err .badHashFormat, fs, 0⟩ := by
  have hbatch : ∀ hl, runBatch sha http (tfile :: rest) hl fs = ⟨.err .badHashFormat, fs, 0⟩ := by
    intro hl
    unfold runBatch processAssets
    rw [hbad]
  unfold dl_test_files
  rcases hm : fs.manifest with _ | _ | l
  · exact hbatch HashList.new
  · exact absurd hm hmf
  · exact hbatch l

/-! Claim theorems. -/

/-- C1: the claim says a transfer whose stream ends after delivering
fewer than the declared `Content-Length = len` bytes fails with
`DownloadFailed` and leaves no partial file.  The code does the
opposite: since `read_to_end` on an initially empty buffer always
returns exactly the number of bytes it appended, the guard
`bytes.len() != read_len && bytes.len() != len` is always false, so a
truncated body that ends cleanly is accepted — `download_test_file`
returns `Ok` with the digest of the partial bytes and writes the
partial file; a stream that instead ends with a read error surfaces as
`TaError::Io`, not `DownloadFailed`. -/
theorem c1_truncated_transfer_accepted (sha : List Nat → List Nat) (fs : FS)
    (name hdr : String) (len : Nat) (data : List Nat)
    (hp : parseUsize hdr = some len) (hsz : data.length < readLimit)
    (htrunc : data.length < len) :
    download_test_file sha (.success (some hdr) (.complete data)) fs name
      = (.ok ⟨sha data⟩, fs.writeFile name data) ∧
    download_test_file sha (.success (some hdr) (.failed data)) fs name
      = (.err (.ioError .otherKind), fs) := by
  constructor
  · have h := download_test_file_complete sha fs name hdr len data hp
    rw [List.take_of_length_le (Nat.le_of_lt hsz)] at h
    exact h
  · simp only [download_test_file, hp, readToEnd]
    rw [if_neg (by omega)]

/-- C1 witness: with `Content-Length: 5` but only the three bytes
`[1, 2, 3]` delivered before the stream ends, the fetch returns `Ok`
with the digest of the partial bytes and the partial file on disk
(clean end), or `TaError::Io` (erroring end) — never `DownloadFailed`. -/
theorem c1_truncated_transfer_accepted_witness :
    download_test_file (fun _ => List.replicate 32 0) (.success (some "5") (.complete [1, 2, 3]))
        ⟨.absent, []⟩ "a.bin"
      = (.ok ⟨List.replicate 32 0⟩, ⟨.absent, [("a.bin", [1, 2, 3])]⟩) ∧
    download_test_file (fun _ => List.replicate 32 0) (.success (some "5") (.failed [1, 2, 3]))
        ⟨.absent, []⟩ "a.bin"
      = (.err (.ioError .otherKind), ⟨.absent, []⟩) :=
  c1_truncated_transfer_accepted (fun _ => List.replicate 32 0) ⟨.absent, []⟩ "a.bin" "5"
    5 [1, 2, 3] (by decide) (by decide) (by decide)

/-- C3 counterexample: a response with no `Content-Length` header makes
`download_test_file` panic (`resp.header("Content-Length").unwrap()`)
instead of proceeding with an unknown length, refuting the claim. -/
theorem c3_missing_header_counterexample :
    download_test_file (fun _ => List.replicate 32 0) (.success none (.complete [1, 2, 3]))
        ⟨.absent, []⟩ "a.bin"
      = (.panic, ⟨.absent, []⟩) := by decide

/-- C3 amended: for every response whose `Content-Length` header is
absent or not parsable as an integer, `download_test_file` panics on
the `unwrap`, aborting the fetch, rather than treating the length as
unknown and proceeding. -/
theorem c3_bad_header_panics (sha : List Nat → List Nat) (fs : FS) (name : String)
    (cl : Option String) (body : Body)
    (h : cl = none ∨ ∃ s, cl = some s ∧ parseUsize s = none) :
    download_test_file sha (.success cl body) fs name = (.panic, fs) := by
  rcases h with rfl | ⟨s, rfl, hps⟩
  · rfl
  · simp only [download_test_file, hps]

/-- C3 witness: the unparsable header value `"abc"` makes the fetch
panic. -/
theorem c3_bad_header_panics_witness :
    download_test_file (fun _ => List.replicate 32 0) (.success (some "abc") (.complete []))
        ⟨.absent, []⟩ "a.bin"
      = (.panic, ⟨.absent, []⟩) :=
  c3_bad_header_panics (fun _ => List.replicate 32 0) ⟨.absent, []⟩ "a.bin" (some "abc")
    (.complete []) (Or.inr ⟨"abc", rfl, by decide⟩)

/-- C10: `download_test_file` reads at most `10_000_000_000` bytes of
the body (`.take(10_000_000_000)`): the body is silently truncated to
its first `readLimit` bytes, which are what is written to disk and
hashed; a longer body is not rejected as an error. -/
theorem c10_read_capped_at_limit (sha : List Nat → List Nat) (fs : FS)
    (name hdr : String) (len : Nat) (data : List Nat) (hp : parseUsize hdr = some len) :
    download_test_file sha (.success (some hdr) (.complete data)) fs name
      = (.ok ⟨sha (data.take readLimit)⟩, fs.writeFile name (data.take readLimit)) :=
  download_test_file_complete sha fs name hdr len data hp

/-- C10 witness: a concrete fetch with declared length 3 and body
`[7, 8, 9]` returns the digest of `(data.take readLimit)` and writes
those bytes. -/
theorem c10_read_capped_at_limit_witness :
    download_test_file (fun _ => List.replicate 32 2) (.success (some "3") (.complete [7, 8, 9]))
        ⟨.absent, []⟩ "b.bin"
      = (.ok ⟨List.replicate 32 2⟩, ⟨.absent, [("b.bin", [7, 8, 9])]⟩) := by
  have h := c10_read_capped_at_limit (fun _ => List.replicate 32 2) ⟨.absent, []⟩ "b.bin" "3"
    3 [7, 8, 9] (by decide)
  rw [show List.take readLimit [7, 8, 9] = [7, 8, 9] from by decide] at h
  exact h

/-- C4 counterexample: the claim says every string that is not exactly
64 hex characters — including longer ones — fails, but `from_hex` stops
reading after 32 bytes without checking that the input is exhausted: a
65-character string of zeros parses successfully. -/
theorem c4_long_string_counterexample :
    (String.mk (List.replicate 65 '0')).length = 65 ∧
      Sha256Hash.from_hex (String.mk (List.replicate 65 '0'))
        = some ⟨List.replicate 32 0⟩ := by decide

/-- C4 amended: `Sha256Hash::from_hex(s)` succeeds exactly when `s` has
at least 64 characters and its first 64 are valid hex digits
(case-insensitive); trailing characters beyond the 64th are ignored.
In particular every 64-hex-digit string succeeds, every shorter or
non-hex string fails, and a parse failure on the first asset of a batch
surfaces as `BadHashFormat`. -/
theorem c4_from_hex_first64 (s : String) (sha : List Nat → List Nat)
    (http : String → HttpResult) (fn url : String) (rest : List TestAssetDef) (fs : FS)
    (hmf : fs.manifest ≠ .ioFail) :
    ((Sha256Hash.from_hex s).isSome = true ↔
      64 ≤ s.data.length ∧ ∀ c ∈ s.data.take 64, (toDigit16 c).isSome = true) ∧
    (Sha256Hash.from_hex s = none →
      (dl_test_files sha http (⟨fn, s, url⟩ :: rest) fs).result = .err .badHashFormat) := by
  constructor
  · have h := from_hexAux_isSome 32 s.data
    norm_num at h
    have hmap : (Sha256Hash.from_hex s).isSome = (from_hexAux 32 s.data).isSome := by
      unfold Sha256Hash.from_hex
      cases from_hexAux 32 s.data
      · rfl
      · rfl
    rw [hmap, h]
    exact Iff.rfl
  · intro hbad
    rw [dl_test_files_first_bad sha http ⟨fn, s, url⟩ rest fs hbad hmf]

/-- C4 witness: `"zz"` is rejected and aborts a batch with
`BadHashFormat`, and the equivalence is exercised at that input. -/
theorem c4_from_hex_first64_witness :
    (((Sha256Hash.from_hex "zz").isSome = true ↔
      64 ≤ "zz".data.length ∧ ∀ c ∈ "zz".data.take 64, (toDigit16 c).isSome = true) ∧
    (Sha256Hash.from_hex "zz" = none →
      (dl_test_files (fun _ => List.replicate 32 0) (fun _ => .callFail)
        [⟨"a.bin", "zz", "http://x/a"⟩] ⟨.absent, []⟩).result = .err .badHashFormat)) :=
  c4_from_hex_first64 "zz" (fun _ => List.replicate 32 0) (fun _ => .callFail)
    "a.bin" "http://x/a" [] ⟨.absent, []⟩ (by decide)

/-- C6: the digest codec round-trips.  For every 32-byte digest `b`,
`from_hex (to_hex b)` recovers `b`; for every string of exactly 64 hex
characters (case-insensitive), `from_hex` succeeds and `to_hex` of the
result is the ASCII-lowercase form of the input; and `to_hex` always
produces exactly 64 lowercase hex characters, two zero-padded
characters per byte. -/
theorem c6_hex_round_trip (b : List Nat) (s : String)
    (hb1 : b.length = 32) (hb2 : ∀ x ∈ b, x < 256)
    (hs1 : s.data.length = 64) (hs2 : ∀ c ∈ s.data, (toDigit16 c).isSome = true) :
    Sha256Hash.from_hex (Sha256Hash.mk b).to_hex = some ⟨b⟩ ∧
    (∃ h, Sha256Hash.from_hex s = some h ∧
      h.to_hex = String.mk (s.data.map toLowerAscii)) ∧
    (Sha256Hash.mk b).to_hex.data.length = 64 ∧
    ∀ c ∈ (Sha256Hash.mk b).to_hex.data, isLowerHexDigit c = true := by
  refine ⟨?_, ?_, ?_, ?_⟩
  · show (from_hexAux 32 ((b.map byteChars).flatten)).map Sha256Hash.mk = some ⟨b⟩
    rw [← hb1, from_hexAux_flatten b hb2]
    rfl
  · obtain ⟨l, hfa, hlen, hbnd, hflat⟩ := from_hexAux_some 32 s.data (by omega) hs2
    refine ⟨⟨l⟩, ?_, ?_⟩
    · unfold Sha256Hash.from_hex
      rw [hfa]
      rfl
    · show String.mk ((l.map byteChars).flatten) = String.mk (s.data.map toLowerAscii)
      exact congrArg String.mk hflat
  · show ((b.map byteChars).flatten).length = 64
    rw [flatten_byteChars_length, hb1]
  · intro c hc
    exact isLowerHexDigit_flatten b hb2 c hc

/-- C6 witness: the laws at the digest `0xab…ab` and the uppercase
string `"FF…F"`. -/
theorem c6_hex_round_trip_witness :
    Sha256Hash.from_hex (Sha256Hash.mk (List.replicate 32 171)).to_hex
      = some ⟨List.replicate 32 171⟩ ∧
    (∃ h, Sha256Hash.from_hex (String.mk (List.replicate 64 'F')) = some h ∧
      h.to_hex = String.mk ((String.mk (List.replicate 64 'F')).data.map toLowerAscii)) ∧
    (Sha256Hash.mk (List.replicate 32 171)).to_hex.data.length = 64 ∧
    ∀ c ∈ (Sha256Hash.mk (List.replicate 32 171)).to_hex.data, isLowerHexDigit c = true :=
  c6_hex_round_trip (List.replicate 32 171) (String.mk (List.replicate 64 'F'))
    (by decide) (by decide) (by decide) (by decide)

/-- C2 counterexample: a single-asset batch whose downloaded payload
hashes to `0x01…01` while the expected hash is `0x00…00` aborts with
`HashMismatch`, and the manifest file is still absent afterwards: the
early `return` skips the `hash_list.to_file` call at the end of
`dl_test_files`, so nothing is persisted on abort. -/
theorem c2_mismatch_manifest_counterexample :
    dl_test_files (fun _ => List.replicate 32 1) (fun _ => .success (some "1") (.complete [1]))
        [⟨"a.bin", String.mk (List.replicate 64 '0'), "http://x/a"⟩] ⟨.absent, []⟩
      = ⟨.err (.hashMismatch (String.mk ((List.replicate 32 1).map byteChars).flatten)
            (String.mk (List.replicate 64 '0'))),
          ⟨.absent, [("a.bin", [1])]⟩, 1⟩ := by decide

/-- C2 amended: on every aborting run — any return other than `Ok(())`,
including a `HashMismatch` after a successful download — `dl_test_files`
returns without persisting the in-memory `HashList`: the manifest file
is left exactly as it was; it is written only when the whole batch
succeeds. -/
theorem c2_manifest_unchanged_on_abort (sha : List Nat → List Nat)
    (http : String → HttpResult) (defs : List TestAssetDef) (fs : FS)
    (h : (dl_test_files sha http defs fs).result ≠ .ok ()) :
    (dl_test_files sha http defs fs).fs.manifest = fs.manifest := by
  rcases hm : fs.manifest with _ | _ | l
  · have hd : dl_test_files sha http defs fs = runBatch sha http defs HashList.new fs := by
      unfold dl_test_files
      rw [hm]
      rfl
    rw [hd] at h ⊢
    rw [runBatch_abort_manifest sha http defs HashList.new fs h, hm]
  · have hd : dl_test_files sha http defs fs = ⟨.err (.ioError .otherKind), fs, 0⟩ := by
      unfold dl_test_files
      rw [hm]
      rfl
    rw [hd, hm]
  · have hd : dl_test_files sha http defs fs = runBatch sha http defs l fs := by
      unfold dl_test_files
      rw [hm]
      rfl
    rw [hd] at h ⊢
    rw [runBatch_abort_manifest sha http defs l fs h, hm]

/-- C2 witness: the amended claim applied to the mismatching batch of
the counterexample — the run aborts and the manifest stays absent. -/
theorem c2_manifest_unchanged_on_abort_witness :
    (dl_test_files (fun _ => List.replicate 32 1) (fun _ => .success (some "2") (.complete [1, 2]))
        [⟨"c.bin", String.mk (List.replicate 64 '0'), "http://x/c"⟩] ⟨.absent, []⟩).fs.manifest
      = (⟨.absent, []⟩ : FS).manifest :=
  c2_manifest_unchanged_on_abort (fun _ => List.replicate 32 1)
    (fun _ => .success (some "2") (.complete [1, 2]))
    [⟨"c.bin", String.mk (List.replicate 64 '0'), "http://x/c"⟩] ⟨.absent, []⟩ (by decide)

/-- C5: the claim says that when every retried invocation fails until
the backoff policy is exhausted, `dl_test_files_backoff` returns the
last underlying error.  The code instead calls `.unwrap()` on the
retry result and panics; its only possible return value is `Ok(())`,
so an exhausted policy ends in a panic, never in a returned error. -/
theorem c5_backoff_exhaustion_panics (sha : List Nat → List Nat)
    (http : String → HttpResult) (defs : List TestAssetDef) (fs : FS) (max_delay : Nat)
    (h : ∀ g : FS, (dl_test_files sha http defs g).result.isErr = true) :
    (dl_test_files_backoff sha http defs fs max_delay).result = .panic := by
  have hr : ∀ (fuel : Nat) (g : FS), (retryCall sha http defs fuel g).result.isErr = true := by
    intro fuel
    induction fuel with
    | zero => exact h
    | succ n ih =>
      intro g
      unfold retryCall
      rcases hd : dl_test_files sha http defs g with ⟨res, g', calls⟩
      have hg := h g
      rw [hd] at hg
      rcases res with _ | e | _
      · simp [DlResult.isErr] at hg
      · exact ih g'
      · simp [DlResult.isErr] at hg
  unfold dl_test_files_backoff
  rcases hrc : retryCall sha http defs 3 fs with ⟨res, fs', calls⟩
  have h3 := hr 3 fs
  rw [hrc] at h3
  rcases res with _ | e | _
  · simp [DlResult.isErr] at h3
  · rfl
  · simp [DlResult.isErr] at h3

/-- C5 witness: an asset whose expected hash `"zz"` is malformed makes
every attempt fail with `BadHashFormat`; after the policy is exhausted
the wrapper panics instead of returning the error. -/
theorem c5_backoff_exhaustion_panics_witness :
    (dl_test_files_backoff (fun _ => List.replicate 32 0) (fun _ => .callFail)
        [⟨"a.bin", "zz", "http://x/a"⟩] ⟨.absent, []⟩ 1).result = .panic :=
  c5_backoff_exhaustion_panics (fun _ => List.replicate 32 0) (fun _ => .callFail)
    [⟨"a.bin", "zz", "http://x/a"⟩] ⟨.absent, []⟩ 1
    (by
      intro g
      rcases g with ⟨m, files⟩
      rcases m with _ | _ | l <;> rfl)

/-- C7: when the manifest loaded from `<dir>/hash_list` maps every
asset's filename to exactly its parsed expected hash, the whole batch
is a cache hit: `dl_test_files` issues zero GETs, returns `Ok(())`, and
leaves the file system — data files and manifest bytes alike —
completely unchanged. -/
theorem c7_cache_hit_idempotent (sha : List Nat → List Nat) (http : String → HttpResult)
    (defs : List TestAssetDef) (l : HashList) (fs : FS)
    (hm : fs.manifest = .stored l)
    (h : ∀ t ∈ defs, ∃ hh, Sha256Hash.from_hex t.hash = some hh ∧
      l.get_hash t.filename = some hh) :
    dl_test_files sha http defs fs = ⟨.ok (), fs, 0⟩ := by
  rcases fs with ⟨m, files⟩
  simp only at hm
  subst hm
  unfold dl_test_files
  show runBatch sha http defs l ⟨.stored l, files⟩ = ⟨.ok (), ⟨.stored l, files⟩, 0⟩
  unfold runBatch
  rw [processAssets_allHit sha http defs l ⟨.stored l, files⟩ 0 h]
  rfl

/-- C7 witness: one asset whose manifest entry already equals its
expected digest: a rerun is a no-op with zero network calls. -/
theorem c7_cache_hit_idempotent_witness :
    dl_test_files (fun _ => List.replicate 32 0) (fun _ => .callFail)
        [⟨"a.bin", String.mk (List.replicate 64 '0'), "http://x/a"⟩]
        ⟨.stored [("a.bin", ⟨List.replicate 32 0⟩)], [("a.bin", [9, 9])]⟩
      = ⟨.ok (), ⟨.stored [("a.bin", ⟨List.replicate 32 0⟩)], [("a.bin", [9, 9])]⟩, 0⟩ :=
  c7_cache_hit_idempotent (fun _ => List.replicate 32 0) (fun _ => .callFail)
    [⟨"a.bin", String.mk (List.replicate 64 '0'), "http://x/a"⟩]
    [("a.bin", ⟨List.replicate 32 0⟩)]
    ⟨.stored [("a.bin", ⟨List.replicate 32 0⟩)], [("a.bin", [9, 9])]⟩
    rfl
    (by
      intro t ht
      rw [List.mem_singleton] at ht
      subst ht
      exact ⟨⟨List.replicate 32 0⟩, by decide, by decide⟩)

/-- C8: a batch whose first asset carries a malformed expected-hash
string returns `BadHashFormat` at once — provided loading the manifest
did not itself fail with a non-`NotFound` I/O error — making zero
network calls and leaving the file system untouched. -/
theorem c8_bad_hash_aborts_batch (sha : List Nat → List Nat) (http : String → HttpResult)
    (tfile : TestAssetDef) (rest : List TestAssetDef) (fs : FS)
    (hbad : Sha256Hash.from_hex tfile.hash = none) (hmf : fs.manifest ≠ .ioFail) :
    dl_test_files sha http (tfile :: rest) fs = ⟨.err .badHashFormat, fs, 0⟩ :=
  dl_test_files_first_bad sha http tfile rest fs hbad hmf

/-- C8 witness: the spec's scenario — expected hash `"zz"` fails
immediately with `BadHashFormat` and zero GETs. -/
theorem c8_bad_hash_aborts_batch_witness :
    dl_test_files (fun _ => List.replicate 32 0)
        (fun _ => .success (some "1") (.complete [1]))
        [⟨"a.bin", "zz", "http://x/a"⟩, ⟨"b.bin", String.mk (List.replicate 64 '0'), "http://x/b"⟩]
        ⟨.absent, []⟩
      = ⟨.err .badHashFormat, ⟨.absent, []⟩, 0⟩ :=
  c8_bad_hash_aborts_batch (fun _ => List.replicate 32 0)
    (fun _ => .success (some "1") (.complete [1]))
    ⟨"a.bin", "zz", "http://x/a"⟩
    [⟨"b.bin", String.mk (List.replicate 64 '0'), "http://x/b"⟩]
    ⟨.absent, []⟩ (by decide) (by decide)

/-- C9: when the manifest file is absent, `dl_test_files` proceeds with
an empty `HashList` (the run is exactly the batch started from
`HashList.new`), while a manifest whose load fails with any other I/O
error aborts the batch at once with that error, before any network
call. -/
theorem c9_manifest_absent_empty_cache (sha : List Nat → List Nat)
    (http : String → HttpResult) (defs : List TestAssetDef) (fs fs2 : FS)
    (h1 : fs.manifest = .absent) (h2 : fs2.manifest = .ioFail) :
    dl_test_files sha http defs fs = runBatch sha http defs HashList.new fs ∧
    dl_test_files sha http defs fs2 = ⟨.err (.ioError .otherKind), fs2, 0⟩ := by
  constructor
  · unfold dl_test_files
    rw [h1]
    rfl
  · unfold dl_test_files
    rw [h2]
    rfl

/-- C9 witness: a concrete batch over an absent manifest runs from the
empty cache; the same batch over an unreadable manifest aborts with the
I/O error. -/
theorem c9_manifest_absent_empty_cache_witness :
    dl_test_files (fun _ => List.replicate 32 0) (fun _ => .callFail)
        [⟨"a.bin", String.mk (List.replicate 64 '0'), "http://x/a"⟩] ⟨.absent, [("k", [1])]⟩
      = runBatch (fun _ => List.replicate 32 0) (fun _ => .callFail)
        [⟨"a.bin", String.mk (List.replicate 64 '0'), "http://x/a"⟩] HashList.new
        ⟨.absent, [("k", [1])]⟩ ∧
    dl_test_files (fun _ => List.replicate 32 0) (fun _ => .callFail)
        [⟨"a.bin", String.mk (List.replicate 64 '0'), "http://x/a"⟩] ⟨.ioFail, []⟩
      = ⟨.err (.ioError .otherKind), ⟨.ioFail, []⟩, 0⟩ :=
  c9_manifest_absent_empty_cache (fun _ => List.replicate 32 0) (fun _ => .callFail)
    [⟨"a.bin", String.mk (List.replicate 64 '0'), "http://x/a"⟩]
    ⟨.absent, [("k", [1])]⟩ ⟨.ioFail, []⟩ rfl rfl

end TestAssets
